import Mathlib

/-!
Verification of the E.V.E master-controller core against its specification.

The Python sources under backend/master_controller are shallowly embedded:
pure computations become Lean functions; methods that mutate object state
become functions from the explicit state to the new state; the current wall
clock (time.time, datetime.now) is passed as an explicit rational `now`;
fallible oracle calls (the Groq client) become an explicit outcome datatype.
Python floats are modelled by rationals, Python str by Lean String, and the
ordered Python dict by an insertion-ordered association list with unique keys.
-/

namespace EVE

/-! ### Python string primitives

`str.lower` (ASCII case folding, which covers every string the controller
compares), `str.strip` (leading/trailing whitespace removal) and the
`needle in hay` substring test. -/

/-- Characters removed by Python `str.strip`: space, tab, newline, carriage
return, vertical tab and form feed. -/
def isPySpace (c : Char) : Bool :=
  c = ' ' || c = '\t' || c = '\n' || c = '\r' || c = Char.ofNat 11 || c = Char.ofNat 12

/-- Python `str.lower` (ASCII range). -/
def pyLower (s : String) : String :=
  String.mk (s.data.map Char.toLower)

/-- Python `str.strip()` with no argument: drop whitespace at both ends. -/
def pyStrip (s : String) : String :=
  String.mk (((s.data.dropWhile isPySpace).reverse.dropWhile isPySpace).reverse)

/-- Does `hay` start with `needle` (character lists)? -/
def charsStartWith : List Char → List Char → Bool
  | [], _ => true
  | _ :: _, [] => false
  | a :: as, b :: bs => a == b && charsStartWith as bs

/-- Does `hay` contain `needle` as a contiguous run (character lists)? -/
def charsContain (needle : List Char) : List Char → Bool
  | [] => charsStartWith needle []
  | c :: rest => charsStartWith needle (c :: rest) || charsContain needle rest

/-- Python `needle in hay` on strings. -/
def hasSubstr (needle hay : String) : Bool :=
  charsContain needle.data hay.data

/-! ### Association lists with Python-dict semantics

Python dicts preserve insertion order and have unique keys.  `aset` updates
an existing key in place and appends a fresh key at the end; `aerase` is
`del d[k]`; `alookup` is `d.get(k)`. -/

/-- Lookup of a key (`d.get(k)` on a Python dict). -/
def alookup {β : Type} (k : String) : List (String × β) → Option β
  | [] => none
  | (k', v) :: rest => if k' = k then some v else alookup k rest

/-- Assignment `d[k] = v` on a Python dict: update in place, else append. -/
def aset {β : Type} (k : String) (v : β) : List (String × β) → List (String × β)
  | [] => [(k, v)]
  | (k', v') :: rest => if k' = k then (k, v) :: rest else (k', v') :: aset k v rest

/-- Deletion `del d[k]` on a Python dict (first occurrence). -/
def aerase {β : Type} (k : String) : List (String × β) → List (String × β)
  | [] => []
  | (k', v') :: rest => if k' = k then rest else (k', v') :: aerase k rest

/-- The key list of the dict, in insertion order (`d.keys()`). -/
def akeys {β : Type} (l : List (String × β)) : List String :=
  l.map Prod.fst

/-! ### Response cache (backend/master_controller/response_cache.py)

`ResponseCache` keeps `{query_hash: {response, timestamp, hit_count,
query_preview}}` plus counters.  md5 is collision-free on every input the
repository feeds it, so the hash is modelled as the identity on the
normalized concatenation (`_hash_query` below) — an injective abstraction
that preserves exactly the collisions the normalization itself introduces. -/

structure CacheEntry where
  response : String
  timestamp : ℚ
  hit_count : Nat
  query_preview : String
deriving DecidableEq, Repr

structure CacheStats where
  hits : Nat
  misses : Nat
  evictions : Nat
  total_saved_calls : Nat
deriving DecidableEq, Repr

structure ResponseCacheState where
  cache : List (String × CacheEntry)
  ttl : ℚ
  max_entries : Nat
  stats : CacheStats
deriving DecidableEq, Repr

/-- `ResponseCache.__init__`: empty cache with the given TTL and capacity. -/
def ResponseCache.init (ttl_seconds : ℚ) (max_entries : Nat) : ResponseCacheState :=
  { cache := [], ttl := ttl_seconds, max_entries := max_entries,
    stats := { hits := 0, misses := 0, evictions := 0, total_saved_calls := 0 } }

/-- `ResponseCache._hash_query`: lowercase and strip the message, and append
the lowercased, stripped context when the context is truthy (present and
non-empty).  md5 modelled as the identity on this normalized string. -/
def ResponseCache.hash_query (message : String) (context : Option String) : String :=
  let normalized := pyStrip (pyLower message)
  match context with
  | none => normalized
  | some c => if c = "" then normalized else normalized ++ pyStrip (pyLower c)

/-- The first key of minimal timestamp, threading the best candidate so far
(Python `min(keys, key=timestamp)` keeps the earliest minimum). -/
def oldestKeyAux (best : String × ℚ) : List (String × CacheEntry) → String
  | [] => best.1
  | (k, e) :: rest =>
      if e.timestamp < best.2 then oldestKeyAux (k, e.timestamp) rest
      else oldestKeyAux best rest

/-- `min(self.cache.keys(), key=lambda k: self.cache[k]["timestamp"])`. -/
def oldestKey? : List (String × CacheEntry) → Option String
  | [] => none
  | (k, e) :: rest => some (oldestKeyAux (k, e.timestamp) rest)

/-- `ResponseCache.get`: report and delete an entry strictly older than the
TTL; otherwise bump its hit count and return the stored response. -/
def ResponseCache.get (st : ResponseCacheState) (message : String)
    (context : Option String) (now : ℚ) : Option String × ResponseCacheState :=
  let query_hash := ResponseCache.hash_query message context
  match alookup query_hash st.cache with
  | some entry =>
      let age := now - entry.timestamp
      if st.ttl < age then
        (none,
         { st with
             cache := aerase query_hash st.cache,
             stats := { st.stats with
                          evictions := st.stats.evictions + 1,
                          misses := st.stats.misses + 1 } })
      else
        (some entry.response,
         { st with
             cache := aset query_hash { entry with hit_count := entry.hit_count + 1 } st.cache,
             stats := { st.stats with
                          hits := st.stats.hits + 1,
                          total_saved_calls := st.stats.total_saved_calls + 1 } })
  | none =>
      (none, { st with stats := { st.stats with misses := st.stats.misses + 1 } })

/-- The `query_preview` stored by `ResponseCache.set`. -/
def mkPreview (message : String) : String :=
  if message.length > 50 then message.take 50 ++ "..." else message

/-- `ResponseCache.set`: when the cache is at capacity and the key is fresh,
delete the entry with the oldest insert timestamp, then store the new entry.
(Python would raise on `min([])`; that branch is unreachable because a cache
at a positive capacity bound is non-empty, and is modelled as a no-op.) -/
def ResponseCache.set (st : ResponseCacheState) (message response : String)
    (context : Option String) (now : ℚ) : ResponseCacheState :=
  let query_hash := ResponseCache.hash_query message context
  let st1 :=
    if st.cache.length ≥ st.max_entries ∧ alookup query_hash st.cache = none then
      match oldestKey? st.cache with
      | some oldest =>
          { st with
              cache := aerase oldest st.cache,
              stats := { st.stats with evictions := st.stats.evictions + 1 } }
      | none => st
    else st
  let entry : CacheEntry :=
    { response := response, timestamp := now, hit_count := 0,
      query_preview := mkPreview message }
  { st1 with cache := aset query_hash entry st1.cache }

/-! ### Worker health monitor (backend/master_controller/worker_health_monitor.py)

`WorkerHealthMonitor` keeps `{worker_id: {last_heartbeat, status,
consecutive_failures, total_failures, health_status, first_seen}}` with
`health_threshold = 30` seconds and `failure_threshold = 3` failures. -/

structure WorkerHealthRecord where
  last_heartbeat : ℚ
  status : String
  consecutive_failures : Nat
  total_failures : Nat
  health_status : String
  first_seen : ℚ
deriving DecidableEq, Repr

/-- The `worker_health` dict of the monitor. -/
abbrev MonitorState := List (String × WorkerHealthRecord)

/-- `self.health_threshold = 30` seconds without heartbeat. -/
def health_threshold : ℚ := 30

/-- `self.failure_threshold = 3` consecutive failures before dead. -/
def failure_threshold : Nat := 3

/-- `WorkerHealthMonitor.update_heartbeat`: create the record on first
contact, otherwise refresh the heartbeat, reset consecutive failures and
restore `health_status` to healthy. -/
def update_heartbeat (st : MonitorState) (worker_id status : String) (now : ℚ) :
    MonitorState :=
  match alookup worker_id st with
  | none =>
      aset worker_id
        { last_heartbeat := now, status := status, consecutive_failures := 0,
          total_failures := 0, health_status := "healthy", first_seen := now } st
  | some w =>
      aset worker_id
        { w with last_heartbeat := now, status := status,
                 consecutive_failures := 0, health_status := "healthy" } st

/-- `WorkerHealthMonitor.record_failure`: unknown workers are ignored; known
workers get both failure counters bumped and are reclassified dead at the
failure threshold, degraded at two failures. -/
def record_failure (st : MonitorState) (worker_id : String) : MonitorState :=
  match alookup worker_id st with
  | none => st
  | some w =>
      let w1 := { w with consecutive_failures := w.consecutive_failures + 1,
                         total_failures := w.total_failures + 1 }
      let w2 :=
        if w1.consecutive_failures ≥ failure_threshold then
          { w1 with health_status := "dead" }
        else if w1.consecutive_failures ≥ 2 then
          { w1 with health_status := "degraded" }
        else w1
      aset worker_id w2 st

/-- `WorkerHealthMonitor.check_worker_health`: unknown id reports
`"unknown"`; a worker whose heartbeat age strictly exceeds the threshold is
demoted to `"unhealthy"` unless it is already dead; the (possibly updated)
status is returned together with the updated state. -/
def check_worker_health (st : MonitorState) (worker_id : String) (now : ℚ) :
    String × MonitorState :=
  match alookup worker_id st with
  | none => ("unknown", st)
  | some w =>
      let time_since := now - w.last_heartbeat
      let w' :=
        if health_threshold < time_since ∧ w.health_status ≠ "dead" then
          { w with health_status := "unhealthy" }
        else w
      (w'.health_status, aset worker_id w' st)

/-- One pass of `WorkerHealthMonitor.get_healthy_workers` over a key list:
check each worker against the current (mutating) state and keep the healthy
and degraded ones, optionally filtered by a substring of the id. -/
def get_healthy_workers_aux (st : MonitorState) (ids : List String)
    (worker_type : Option String) (now : ℚ) : List String × MonitorState :=
  match ids with
  | [] => ([], st)
  | id :: rest =>
      let r := check_worker_health st id now
      let acc := get_healthy_workers_aux r.2 rest worker_type now
      let keep : Bool := (r.1 == "healthy" || r.1 == "degraded") &&
        (match worker_type with
         | none => true
         | some t => hasSubstr t (pyLower id))
      (if keep then id :: acc.1 else acc.1, acc.2)

/-- `WorkerHealthMonitor.get_healthy_workers`. -/
def get_healthy_workers (st : MonitorState) (worker_type : Option String)
    (now : ℚ) : List String × MonitorState :=
  get_healthy_workers_aux st (akeys st) worker_type now

/-- The operations that touch monitor state (heartbeats, failure reports and
health checks). -/
inductive MonitorEvent where
  | heartbeat (worker_id status : String) (now : ℚ)
  | failure (worker_id : String)
  | check (worker_id : String) (now : ℚ)
deriving DecidableEq, Repr

/-- Apply one monitor event to the state. -/
def monitorStep (st : MonitorState) : MonitorEvent → MonitorState
  | .heartbeat id s now => update_heartbeat st id s now
  | .failure id => record_failure st id
  | .check id now => (check_worker_health st id now).2

/-- Run a sequence of monitor events. -/
def monitorRun (st : MonitorState) (evs : List MonitorEvent) : MonitorState :=
  evs.foldl monitorStep st

/-- Does an event list carry a heartbeat for the given worker? -/
def hasHeartbeatFor (worker_id : String) : List MonitorEvent → Prop
  | [] => False
  | .heartbeat id _ _ :: rest => id = worker_id ∨ hasHeartbeatFor worker_id rest
  | _ :: rest => hasHeartbeatFor worker_id rest

/-! ### Performance tracker (backend/master_controller/performance_tracker.py)

Only the fields read by the circuit-breaker health check are carried.  The
class defines `is_worker_healthy` twice; in Python the later definition
(lines 402-424) shadows the earlier advanced one (lines 325-373), so the
later definition is the behaviour of the object, and it is the one embedded
here.  `last_failure_time` is stored as an ISO timestamp and parsed back
inside a try/except; the embedding carries the parsed time directly, `none`
standing for the field being `None`. -/

structure WorkerMetrics where
  success_count : Nat
  failure_count : Nat
  total_tasks : Nat
  consecutive_failures : Nat
  last_failure_time : Option ℚ
  uptime_percentage : ℚ
  performance_trend : String
  predicted_success_rate : ℚ
deriving DecidableEq, Repr

/-- `PerformanceTracker.is_worker_healthy` (the later, effective definition):
unhealthy on `consecutive_failures ≥ max_consecutive_failures`, on more than
10 tasks with uptime below 50%, or on a failure within the last 5 minutes
when at least 2 consecutive failures are pending. -/
def PerformanceTracker.is_worker_healthy (m : WorkerMetrics) (now : ℚ)
    (max_consecutive_failures : Nat := 3) : Bool :=
  if m.consecutive_failures ≥ max_consecutive_failures then false
  else if m.total_tasks > 10 ∧ m.uptime_percentage < 50 then false
  else
    match m.last_failure_time with
    | none => true
    | some t =>
        if now - t < 5 * 60 ∧ m.consecutive_failures ≥ 2 then false else true

/-! ### Task planner (backend/master_controller/task_planner.py)

The Groq call is modelled by an outcome: no client configured, an exception
from the API call or the JSON parse, or a parsed JSON object.  A JSON object
whose `"steps"` field is missing or not a list is `steps := none`. -/

/-- The step types `plan_task` accepts. -/
def validStepTypes : List String := ["coding", "documentation", "analysis", "general"]

structure PlannerJson where
  steps : Option (List String)
  reasoning : Option String
deriving DecidableEq, Repr

structure Plan where
  steps : List String
  is_multi_step : Bool
  reasoning : String
deriving DecidableEq, Repr

inductive PlannerOutcome where
  | noClient
  | oracleError
  | ok (result : PlannerJson)
deriving DecidableEq, Repr

/-- `TaskPlanner._default_plan`. -/
def default_plan : Plan :=
  { steps := ["general"], is_multi_step := false,
    reasoning := "Default single-step plan" }

/-- The clean-up loop of `plan_task`: lowercase and strip each step and keep
those in the valid list. -/
def cleanSteps (raw : List String) : List String :=
  (raw.map fun s => pyStrip (pyLower s)).filter fun s => validStepTypes.contains s

/-- `TaskPlanner.plan_task` as a function of the oracle outcome. -/
def plan_task (o : PlannerOutcome) : Plan :=
  match o with
  | .noClient =>
      { steps := ["general"], is_multi_step := false,
        reasoning := "No AI planner available - single step execution" }
  | .oracleError => default_plan
  | .ok r =>
      match r.steps with
      | none => default_plan
      | some raw =>
          let cleaned := cleanSteps raw
          let valid_steps := if cleaned = [] then ["general"] else cleaned
          { steps := valid_steps,
            is_multi_step := valid_steps.length > 1,
            reasoning := r.reasoning.getD "AI task planning" }

/-! ### Answer validator (backend/master_controller/answer_validator.py) -/

structure ValidationResult where
  is_complete : Bool
  quality_score : Nat
  should_retry : Bool
  reasoning : String
  confidence : ℚ
deriving DecidableEq, Repr

/-- The error markers `_basic_validation` scans for. -/
def error_words : List String := ["error", "failed", "cannot", "unable"]

/-- `AnswerValidator._basic_validation`: an error word in the first 200
characters of the lowercased response gives quality 3; otherwise a stripped
length below 10 gives quality 4; otherwise quality 7.  Retry is recommended
in the first two cases. -/
def basic_validation (response : String) : ValidationResult :=
  let is_error := error_words.any fun w => hasSubstr w ((pyLower response).take 200)
  let is_too_short := (pyStrip response).length < 10
  let quality := if is_error then 3 else if is_too_short then 4 else 7
  let should_retry := is_error || is_too_short
  { is_complete := !should_retry, quality_score := quality,
    should_retry := should_retry, reasoning := "Basic validation (no AI)",
    confidence := 1 / 2 }

/-! ### Task queue (backend/master_controller/task_queue.py)

`Task` is a dataclass with `order=True` where every field except `priority`
is `compare=False`, so `Task.__lt__` compares priorities alone.  The queue
is a plain Python list managed by the `heapq` module; `heappush`,
`heappop`, `_siftdown` and `_siftup` below follow the CPython reference
implementation of `heapq` line by line (the C accelerator implements the
same algorithm).  Queue capacity, the condition variable and the
callback/retry payload fields do not affect ordering and are not carried. -/

structure Task where
  priority : Nat
  timestamp : ℚ
  task_id : String
  task_type : String
deriving DecidableEq, Repr

/-- Default element for out-of-range list reads (never reached on the index
ranges the algorithm uses). -/
def dummyTask : Task :=
  { priority := 0, timestamp := 0, task_id := "", task_type := "" }

/-- `Task.__lt__` generated by `dataclass(order=True)`: compare the tuple of
fields without `compare=False`, which is the priority alone. -/
def tlt (a b : Task) : Bool :=
  decide (a.priority < b.priority)

/-- The loop of `heapq._siftdown(heap, startpos, pos)` with `newitem =
heap[pos]` already read: move parents down while the new item sorts below
them, then write the new item at the final hole.  The loop is made
structurally recursive by a fuel argument; each iteration moves `pos` to
`(pos - 1) / 2 < pos`, so with initial fuel `pos` the base case is reached
only when `pos = 0`, where the loop guard `startpos < pos` fails anyway:
the fuel never cuts the loop short. -/
def siftdownFuel : Nat → List Task → Nat → Nat → Task → List Task
  | 0, heap, _startpos, pos, newitem => heap.set pos newitem
  | fuel + 1, heap, startpos, pos, newitem =>
      if startpos < pos then
        let parentpos := (pos - 1) / 2
        let parent := heap.getD parentpos dummyTask
        if tlt newitem parent then
          siftdownFuel fuel (heap.set pos parent) startpos parentpos newitem
        else
          heap.set pos newitem
      else
        heap.set pos newitem

/-- `heapq._siftdown(heap, startpos, pos)`. -/
def pySiftdown (heap : List Task) (startpos pos : Nat) : List Task :=
  siftdownFuel pos heap startpos pos (heap.getD pos dummyTask)

/-- The child `heapq._siftup` descends into: the right child when it exists
and the left child does not sort strictly below it, else the left child. -/
def chooseChild (heap : List Task) (endpos pos : Nat) : Nat :=
  if 2 * pos + 2 < endpos ∧
      tlt (heap.getD (2 * pos + 1) dummyTask) (heap.getD (2 * pos + 2) dummyTask) = false then
    2 * pos + 2
  else
    2 * pos + 1

/-- The loop of `heapq._siftup(heap, pos)` with `newitem = heap[pos]`
already read: move the smaller child up into the hole down to a leaf, then
place the new item there and restore with `_siftdown`.  Fuel as above: each
iteration moves `pos` past `2 * pos`, so with initial fuel `endpos - pos`
the base case is reached only when `pos ≥ endpos`, where the loop guard
`2 * pos + 1 < endpos` fails anyway. -/
def siftupFuel : Nat → List Task → Nat → Nat → Nat → Task → List Task
  | 0, heap, _endpos, startpos, pos, newitem =>
      siftdownFuel pos (heap.set pos newitem) startpos pos newitem
  | fuel + 1, heap, endpos, startpos, pos, newitem =>
      if 2 * pos + 1 < endpos then
        let c := chooseChild heap endpos pos
        siftupFuel fuel (heap.set pos (heap.getD c dummyTask)) endpos startpos c newitem
      else
        siftdownFuel pos (heap.set pos newitem) startpos pos newitem

/-- `heapq._siftup(heap, pos)`. -/
def pySiftup (heap : List Task) (pos : Nat) : List Task :=
  siftupFuel (heap.length - pos) heap heap.length pos pos (heap.getD pos dummyTask)

/-- `heapq.heappush`: append the item and sift it toward the root. -/
def heappush (heap : List Task) (item : Task) : List Task :=
  pySiftdown (heap ++ [item]) 0 heap.length

/-- `heapq.heappop`: pop the last element; if the heap is still non-empty,
return the root, move the last element there and sift it down.  An empty
heap gives `none` (Python raises IndexError; `SmartTaskQueue.dequeue` blocks
on the condition variable before reaching it). -/
def heappop (heap : List Task) : Option (Task × List Task) :=
  if heap.isEmpty then none
  else
    let lastelt := heap.getLastD dummyTask
    let rest := heap.dropLast
    if rest.isEmpty then some (lastelt, rest)
    else some (rest.getD 0 dummyTask, pySiftup (rest.set 0 lastelt) 0)

/-- Queue operations: `SmartTaskQueue.enqueue` pushes a freshly built task,
`SmartTaskQueue.dequeue` pops the root.  (The capacity check raises before
touching the heap and re-queueing in `mark_complete` is a further
`heappush`, so every reachable heap is produced by these two.) -/
inductive QueueOp where
  | enqueue (task : Task)
  | dequeue
deriving DecidableEq, Repr

/-- Apply one queue operation to the heap list. -/
def queueStep (q : List Task) : QueueOp → List Task
  | .enqueue t => heappush q t
  | .dequeue =>
      match heappop q with
      | some (_, q') => q'
      | none => q

/-- The heap list after a sequence of queue operations from the empty queue. -/
def runQueue (ops : List QueueOp) : List Task :=
  ops.foldl queueStep []

/-- The priority stored at index `i` of the heap list. -/
def pri (l : List Task) (i : Nat) : Nat :=
  (l.getD i dummyTask).priority

/-- The binary-heap shape invariant: every non-root entry sorts no higher
than its parent at index `(i-1)/2`. -/
def heapInv (l : List Task) : Prop :=
  ∀ j, 1 ≤ j → j < l.length → pri l ((j - 1) / 2) ≤ pri l j

/-! ### Statement-side definitions and concrete instances -/

/-- The fallback heuristic as the specification words it (with the two
corrections the code forces: the short-response branch scores 4, not 3, and
the length tested is that of the stripped response): error word in the
first 200 characters → quality 3 and retry; else stripped length below 10 →
quality 4 and retry; else quality 7 and accept. -/
def fallback_heuristic (response : String) : ValidationResult :=
  if error_words.any fun w => hasSubstr w ((pyLower response).take 200) then
    { is_complete := false, quality_score := 3, should_retry := true,
      reasoning := "Basic validation (no AI)", confidence := 1 / 2 }
  else if (pyStrip response).length < 10 then
    { is_complete := false, quality_score := 4, should_retry := true,
      reasoning := "Basic validation (no AI)", confidence := 1 / 2 }
  else
    { is_complete := true, quality_score := 7, should_retry := false,
      reasoning := "Basic validation (no AI)", confidence := 1 / 2 }

/-- Metrics of a worker that has seen two tasks and three consecutive
failures (a fresh worker whose first tasks all failed). -/
def mNewWorker : WorkerMetrics :=
  { success_count := 0, failure_count := 3, total_tasks := 2,
    consecutive_failures := 3, last_failure_time := none,
    uptime_percentage := 0, performance_trend := "learning",
    predicted_success_rate := 0 }

/-- A monitor record with the given heartbeat time, health status and
failure counters. -/
def mkRecord (hb : ℚ) (hs : String) (cf : Nat) : WorkerHealthRecord :=
  { last_heartbeat := hb, status := "idle", consecutive_failures := cf,
    total_failures := cf, health_status := hs, first_seen := 0 }

/-- A task carrying only the fields that matter to the queue order. -/
def mkTask (p : Nat) (ts : ℚ) (id : String) : Task :=
  { priority := p, timestamp := ts, task_id := id, task_type := "general" }

/-- The record of a worker that heartbeat at time 0 and then failed three
times: exactly what `monitorRun` produces for that trace. -/
def recDead : WorkerHealthRecord :=
  { last_heartbeat := 0, status := "idle", consecutive_failures := 3,
    total_failures := 3, health_status := "dead", first_seen := 0 }

/-- The same worker right after a successful heartbeat at time 1. -/
def recRevived : WorkerHealthRecord :=
  { last_heartbeat := 1, status := "idle", consecutive_failures := 0,
    total_failures := 3, health_status := "healthy", first_seen := 0 }

/-! ## Association-list lemmas -/

theorem alookup_aset_self {β : Type} (k : String) (v : β) (l : List (String × β)) :
    alookup k (aset k v l) = some v := by
  induction l with
  | nil => simp [aset, alookup]
  | cons p rest ih =>
      obtain ⟨k', v'⟩ := p
      by_cases h : k' = k
      · simp [aset, alookup, h]
      · simp [aset, alookup, h, ih]

theorem alookup_aset_ne {β : Type} {k k' : String} (v : β) (l : List (String × β))
    (h : k' ≠ k) : alookup k (aset k' v l) = alookup k l := by
  induction l with
  | nil => simp only [aset, alookup, if_neg h]
  | cons p rest ih =>
      obtain ⟨k₀, v₀⟩ := p
      simp only [aset]
      by_cases h0 : k₀ = k'
      · rw [if_pos h0]
        have h1 : ¬(k₀ = k) := by rw [h0]; exact h
        simp only [alookup, if_neg h, if_neg h1]
      · rw [if_neg h0]
        simp only [alookup]
        by_cases h1 : k₀ = k
        · rw [if_pos h1, if_pos h1]
        · rw [if_neg h1, if_neg h1]
          exact ih

theorem alookup_aerase_ne {β : Type} {k k' : String} (l : List (String × β))
    (h : k' ≠ k) : alookup k (aerase k' l) = alookup k l := by
  induction l with
  | nil => rfl
  | cons p rest ih =>
      obtain ⟨k₀, v₀⟩ := p
      simp only [aerase]
      by_cases h0 : k₀ = k'
      · rw [if_pos h0]
        have h1 : ¬(k₀ = k) := by rw [h0]; exact h
        simp only [alookup, if_neg h1]
      · rw [if_neg h0]
        simp only [alookup]
        by_cases h1 : k₀ = k
        · rw [if_pos h1, if_pos h1]
        · rw [if_neg h1, if_neg h1]
          exact ih

theorem alookup_eq_none_iff {β : Type} (k : String) (l : List (String × β)) :
    alookup k l = none ↔ k ∉ akeys l := by
  induction l with
  | nil => simp [alookup, akeys]
  | cons p rest ih =>
      obtain ⟨k₀, v₀⟩ := p
      by_cases h0 : k₀ = k
      · simp [alookup, akeys, h0]
      · have h0' : ¬(k = k₀) := fun hh => h0 hh.symm
        simp [alookup, akeys, h0, h0', ih]

theorem alookup_aerase_self {β : Type} (k : String) (l : List (String × β))
    (hnd : (akeys l).Nodup) : alookup k (aerase k l) = none := by
  induction l with
  | nil => simp [aerase, alookup]
  | cons p rest ih =>
      obtain ⟨k₀, v₀⟩ := p
      simp only [akeys, List.map_cons, List.nodup_cons] at hnd
      by_cases h0 : k₀ = k
      · subst h0
        simp only [aerase, if_pos rfl]
        exact (alookup_eq_none_iff k₀ rest).mpr hnd.1
      · simp only [aerase, if_neg h0, alookup, if_neg h0]
        exact ih hnd.2

theorem alookup_none_aerase {β : Type} (k k' : String) (l : List (String × β))
    (h : alookup k l = none) : alookup k (aerase k' l) = none := by
  induction l with
  | nil => simp [aerase, alookup]
  | cons p rest ih =>
      obtain ⟨k₀, v₀⟩ := p
      simp only [alookup] at h
      by_cases h1 : k₀ = k
      · simp [h1] at h
      · simp only [if_neg h1] at h
        by_cases h0 : k₀ = k'
        · simpa [aerase, h0] using h
        · simp [aerase, alookup, h0, h1, ih h]

theorem aset_self_of_lookup {β : Type} {k : String} {v : β} {l : List (String × β)}
    (h : alookup k l = some v) : aset k v l = l := by
  induction l with
  | nil => simp [alookup] at h
  | cons p rest ih =>
      obtain ⟨k₀, v₀⟩ := p
      simp only [alookup] at h
      by_cases h0 : k₀ = k
      · subst h0
        rw [if_pos rfl] at h
        injection h with h
        subst h
        simp [aset]
      · simp only [if_neg h0] at h
        simp [aset, h0, ih h]

theorem aset_append_of_lookup_none {β : Type} {k : String} (v : β)
    {l : List (String × β)} (h : alookup k l = none) :
    aset k v l = l ++ [(k, v)] := by
  induction l with
  | nil => simp [aset]
  | cons p rest ih =>
      obtain ⟨k₀, v₀⟩ := p
      simp only [alookup] at h
      by_cases h0 : k₀ = k
      · simp [h0] at h
      · simp only [if_neg h0] at h
        simp [aset, h0, ih h]

theorem length_aerase_of_mem {β : Type} {k : String} {v : β} {l : List (String × β)}
    (h : alookup k l = some v) : (aerase k l).length + 1 = l.length := by
  induction l with
  | nil => simp [alookup] at h
  | cons p rest ih =>
      obtain ⟨k₀, v₀⟩ := p
      simp only [alookup] at h
      by_cases h0 : k₀ = k
      · simp [aerase, h0]
      · simp only [if_neg h0] at h
        simp [aerase, h0, ih h]

theorem alookup_isSome_of_mem {β : Type} {k : String} {v : β} {l : List (String × β)}
    (h : (k, v) ∈ l) : (alookup k l).isSome := by
  induction l with
  | nil => simp at h
  | cons p rest ih =>
      obtain ⟨k₀, v₀⟩ := p
      rcases List.mem_cons.mp h with h1 | h1
      · obtain ⟨hk, -⟩ := Prod.ext_iff.mp h1
        subst hk
        simp [alookup]
      · by_cases h0 : k₀ = k <;> simp [alookup, h0, ih h1]

theorem set_cache_lookup (st : ResponseCacheState) (message response : String)
    (context : Option String) (now : ℚ) :
    alookup (ResponseCache.hash_query message context)
        (ResponseCache.set st message response context now).cache
      = some { response := response, timestamp := now, hit_count := 0,
               query_preview := mkPreview message } := by
  unfold ResponseCache.set
  dsimp only
  exact alookup_aset_self _ _ _

theorem set_ttl (st : ResponseCacheState) (message response : String)
    (context : Option String) (now : ℚ) :
    (ResponseCache.set st message response context now).ttl = st.ttl := by
  unfold ResponseCache.set
  dsimp only
  split
  · split <;> rfl
  · rfl

/-! ## C1 — circuit-breaker threshold

The class defines `is_worker_healthy` twice and the later definition wins,
so the health check in effect uses the fixed base threshold 3: no +2
tolerance for workers with fewer than 5 tasks and no +1 for an improving
trend. -/

/-- C1 (counterexample): a worker with only 2 total tasks and 3 consecutive
failures is classified dead by the effective health check, although the
claimed adaptive threshold for a worker with fewer than 5 tasks is 3 + 2 =
5, which 3 has not reached. -/
theorem C1_counterexample :
    mNewWorker.total_tasks < 5 ∧ mNewWorker.consecutive_failures < 3 + 2 ∧
    PerformanceTracker.is_worker_healthy mNewWorker 0 3 = false := by
  decide

/-- C1 (amended): the health check in effect (the later of the two
`is_worker_healthy` definitions, which shadows the adaptive one) reports a
worker unhealthy exactly when its consecutive failures reach the fixed base
threshold 3, or more than 10 tasks have run with uptime below 50%, or the
last failure is less than 5 minutes old while at least 2 consecutive
failures are pending. -/
theorem C1_is_worker_healthy_false_iff (m : WorkerMetrics) (now : ℚ) :
    PerformanceTracker.is_worker_healthy m now 3 = false ↔
      3 ≤ m.consecutive_failures ∨
      (10 < m.total_tasks ∧ m.uptime_percentage < 50) ∨
      (∃ t, m.last_failure_time = some t ∧ now - t < 300 ∧
        2 ≤ m.consecutive_failures) := by
  unfold PerformanceTracker.is_worker_healthy
  have h300 : (5 : ℚ) * 60 = 300 := by norm_num
  cases hlf : m.last_failure_time with
  | none =>
      split_ifs with h1 h2
      · simp [h1]
      · simp [h1, h2]
      · simp [h1, h2]
  | some t =>
      dsimp only
      rw [h300]
      split_ifs with h1 h2 h3
      · simp [h1]
      · simp [h1, h2]
      · simp [h1, h2, h3]
      · simp [h1, h2, h3]

/-! ## C5 — fallback validation heuristic

The short-response branch of `_basic_validation` scores quality 4, not the
claimed 3 (only the error-word branch scores 3), and the length test is on
the stripped response. -/

set_option maxRecDepth 8000 in
/-- C5 (counterexample): the response `"hi"` is shorter than 10 characters
and contains no error word; the claim then demands quality 3, but the
fallback heuristic produces quality 4 (with a retry recommendation). -/
theorem C5_counterexample :
    (pyStrip "hi").length < 10 ∧
    (basic_validation "hi").should_retry = true ∧
    (basic_validation "hi").quality_score = 4 ∧
    ¬(basic_validation "hi").quality_score = 3 := by
  decide

/-- C5 (amended): with no validation oracle the fallback heuristic gives
quality 3 and retry when an error word occurs in the first 200 characters,
quality 4 and retry when the stripped response is shorter than 10
characters, and quality 7 with acceptance otherwise — as computed by
`fallback_heuristic`, the claim restated with those two corrections. -/
theorem C5_basic_validation_eq_heuristic (response : String) :
    basic_validation response = fallback_heuristic response := by
  unfold basic_validation fallback_heuristic
  by_cases he : (error_words.any fun w => hasSubstr w ((pyLower response).take 200)) = true
  · simp [he]
  · have he' := Bool.not_eq_true _ |>.mp he
    by_cases hs : (pyStrip response).length < 10
    · simp [he', hs]
    · simp [he', hs]

/-! ## C2 — plan shape

`plan_task` keeps every valid step the oracle returns: the cap at 3 lives
only in the prompt text, not in the code. -/

/-- C2 (counterexample): an oracle reply with four valid steps yields a plan
of length 4, violating the claimed bound of 3. -/
theorem C2_counterexample :
    3 < (plan_task (.ok { steps := some ["coding", "coding", "coding", "coding"],
                          reasoning := none })).steps.length := by
  decide

/-- C2 (amended): every plan is non-empty and draws only from the four step
types; when the oracle is unavailable, raises, returns no `"steps"` list or
returns no valid step type, the plan is exactly `["general"]`; the length
is bounded by the number of steps the oracle returned (but by no constant:
the cap at 3 is requested in the prompt, not enforced). -/
theorem C2_plan_shape :
    (∀ o, (plan_task o).steps ≠ [] ∧
      ((plan_task o).steps.all fun s => validStepTypes.contains s) = true) ∧
    (plan_task .noClient).steps = ["general"] ∧
    (plan_task .oracleError).steps = ["general"] ∧
    (∀ r : PlannerJson, r.steps = none → (plan_task (.ok r)).steps = ["general"]) ∧
    (∀ (r : PlannerJson) (raw : List String), r.steps = some raw →
      cleanSteps raw = [] → (plan_task (.ok r)).steps = ["general"]) ∧
    (∀ (r : PlannerJson) (raw : List String), r.steps = some raw →
      (plan_task (.ok r)).steps.length ≤ max 1 raw.length) := by
  refine ⟨?_, rfl, rfl, ?_, ?_, ?_⟩
  · intro o
    cases o with
    | noClient => decide
    | oracleError => decide
    | ok r =>
        cases hr : r.steps with
        | none =>
            simp only [plan_task, hr]
            exact ⟨by decide, by decide⟩
        | some raw =>
            simp only [plan_task, hr]
            by_cases hc : cleanSteps raw = []
            · rw [if_pos hc]
              exact ⟨by decide, by decide⟩
            · rw [if_neg hc]
              refine ⟨hc, ?_⟩
              have hmem : ∀ s ∈ cleanSteps raw, validStepTypes.contains s = true := by
                intro s hs
                exact List.of_mem_filter hs
              simpa [List.all_eq_true] using hmem
  · intro r hr
    simp [plan_task, hr, default_plan]
  · intro r raw hr hc
    simp [plan_task, hr, hc]
  · intro r raw hr
    simp only [plan_task, hr]
    by_cases hc : cleanSteps raw = []
    · simp [hc]
    · simp only [if_neg hc]
      have hle : (cleanSteps raw).length ≤ raw.length := by
        calc (cleanSteps raw).length
            ≤ (raw.map fun s => pyStrip (pyLower s)).length := List.length_filter_le _ _
          _ = raw.length := List.length_map _ _
      omega

/-- C2 (witness): the fallback cases and the length bound at concrete oracle
replies: a reply without a step list plans `["general"]`, a reply whose only
step type is invalid plans `["general"]`, and a two-step reply plans at most
two steps. -/
theorem C2_plan_shape_witness :
    (plan_task (.ok { steps := none, reasoning := some "x" })).steps = ["general"] ∧
    (plan_task (.ok { steps := some ["poetry"], reasoning := none })).steps = ["general"] ∧
    (plan_task (.ok { steps := some ["coding", "analysis"],
                      reasoning := none })).steps.length ≤ max 1 2 := by
  refine ⟨?_, ?_, ?_⟩
  · exact C2_plan_shape.2.2.2.1 _ rfl
  · exact C2_plan_shape.2.2.2.2.1 _ ["poetry"] rfl (by decide)
  · exact C2_plan_shape.2.2.2.2.2 _ ["coding", "analysis"] rfl

/-! ## C6 — heartbeat age exactly at the threshold

`check_worker_health` demotes a worker only when the heartbeat age is
strictly greater than the 30-second threshold, so age exactly 30 keeps the
stored status. -/

/-- C6 (counterexample): a healthy worker whose last heartbeat is exactly 30
seconds old is still reported healthy by the check, not unhealthy as the
claim demands. -/
theorem C6_counterexample :
    (30 : ℚ) - (mkRecord 0 "healthy" 0).last_heartbeat = health_threshold ∧
    (check_worker_health [("w1", mkRecord 0 "healthy" 0)] "w1" 30).1 = "healthy" ∧
    ¬(check_worker_health [("w1", mkRecord 0 "healthy" 0)] "w1" 30).1 = "unhealthy" := by
  refine ⟨by norm_num [mkRecord, health_threshold], ?_, ?_⟩
  · simp only [check_worker_health, alookup, mkRecord, health_threshold, if_pos rfl]
    norm_num
  · simp only [check_worker_health, alookup, mkRecord, health_threshold, if_pos rfl]
    norm_num
    try decide

/-- C6 (amended): a known worker whose heartbeat age equals the 30-second
threshold exactly is not reclassified: the check returns the stored health
status and leaves the state unchanged (only a strictly greater age demotes
to unhealthy). -/
theorem C6_age_at_threshold_keeps_status (st : MonitorState) (w : String)
    (r : WorkerHealthRecord) (now : ℚ) (hw : alookup w st = some r)
    (hage : now - r.last_heartbeat = health_threshold) :
    check_worker_health st w now = (r.health_status, st) := by
  unfold check_worker_health
  rw [hw]
  dsimp only
  have hcond : ¬(health_threshold < now - r.last_heartbeat ∧ r.health_status ≠ "dead") := by
    rw [hage]
    rintro ⟨hlt, -⟩
    exact lt_irrefl _ hlt
  rw [if_neg hcond, aset_self_of_lookup hw]

/-- C6 (witness): the amended statement at the concrete state of the
counterexample record. -/
theorem C6_age_at_threshold_witness :
    check_worker_health [("w1", mkRecord 0 "healthy" 0)] "w1" 30
      = ((mkRecord 0 "healthy" 0).health_status, [("w1", mkRecord 0 "healthy" 0)]) :=
  C6_age_at_threshold_keeps_status _ "w1" (mkRecord 0 "healthy" 0) 30
    (by simp [alookup]) (by norm_num [mkRecord, health_threshold])

/-! ## C10 — failures for unregistered workers -/

/-- C10: `record_failure` for a worker id that has never sent a heartbeat
returns the monitor state unchanged: no failure is counted and no record is
created. -/
theorem C10_record_failure_unknown_id (st : MonitorState) (w : String)
    (h : alookup w st = none) : record_failure st w = st := by
  unfold record_failure
  rw [h]

/-- C10 (witness): a failure report for the unseen id `"w2"` leaves a
one-worker state untouched. -/
theorem C10_record_failure_unknown_id_witness :
    record_failure [("w1", mkRecord 0 "healthy" 0)] "w2"
      = [("w1", mkRecord 0 "healthy" 0)] :=
  C10_record_failure_unknown_id _ "w2" (by decide)

/-! ## C9 — key collision through normalized concatenation -/

set_option maxRecDepth 8000 in
/-- C9: the pairs `("foobar", no context)` and `("foo", context "bar")` are
distinct inputs with the same normalized key, and they share one cache
entry: a `set` under the first pair is returned by a `get` under the
second. -/
theorem C9_normalized_key_collision :
    (("foobar" : String), (none : Option String)) ≠ ("foo", some "bar") ∧
    ResponseCache.hash_query "foobar" none = ResponseCache.hash_query "foo" (some "bar") ∧
    (ResponseCache.get
      (ResponseCache.set (ResponseCache.init 3600 1000) "foobar" "cached answer" none 0)
      "foo" (some "bar") 10).1 = some "cached answer" := by
  refine ⟨by decide, by decide, ?_⟩
  unfold ResponseCache.get
  dsimp only
  rw [show ResponseCache.hash_query "foo" (some "bar")
        = ResponseCache.hash_query "foobar" none from by decide]
  rw [set_cache_lookup]
  dsimp only
  rw [set_ttl]
  norm_num [ResponseCache.init]

/-! ## C4 — TTL round trip and expiry on read -/

/-- C4: a value stored by `set` is returned by a `get` under the same
message and context whose observation time is within the TTL of the insert
time; and a `get` that finds an entry strictly older than the TTL returns
none and deletes the entry, so an expired entry is never served. -/
theorem C4_ttl_roundtrip_and_expiry :
    (∀ (st : ResponseCacheState) (message : String) (context : Option String)
       (v : String) (t_set t_get : ℚ),
       t_get - t_set ≤ st.ttl →
       (ResponseCache.get (ResponseCache.set st message v context t_set)
         message context t_get).1 = some v) ∧
    (∀ (st : ResponseCacheState) (message : String) (context : Option String)
       (now : ℚ) (e : CacheEntry),
       (akeys st.cache).Nodup →
       alookup (ResponseCache.hash_query message context) st.cache = some e →
       st.ttl < now - e.timestamp →
       (ResponseCache.get st message context now).1 = none ∧
       alookup (ResponseCache.hash_query message context)
         (ResponseCache.get st message context now).2.cache = none) := by
  constructor
  · intro st message context v t_set t_get h
    unfold ResponseCache.get
    dsimp only
    rw [set_cache_lookup]
    dsimp only
    rw [set_ttl]
    rw [if_neg (not_lt.mpr h)]
  · intro st message context now e hnd he hold
    unfold ResponseCache.get
    dsimp only
    rw [he]
    dsimp only
    rw [if_pos hold]
    exact ⟨rfl, alookup_aerase_self _ _ hnd⟩

/-- C4 (witness): both directions at a concrete cache: a value stored at
time 0 with TTL 3600 is served at time 3600, and at time 3601 the read
reports a miss and removes the entry. -/
theorem C4_ttl_roundtrip_and_expiry_witness :
    (ResponseCache.get
       (ResponseCache.set (ResponseCache.init 3600 1000) "q" "a" none 0)
       "q" none 3600).1 = some "a" ∧
    (ResponseCache.get
       (ResponseCache.set (ResponseCache.init 3600 1000) "q" "a" none 0)
       "q" none 3601).1 = none ∧
    alookup (ResponseCache.hash_query "q" none)
      (ResponseCache.get
        (ResponseCache.set (ResponseCache.init 3600 1000) "q" "a" none 0)
        "q" none 3601).2.cache = none := by
  refine ⟨?_, ?_, ?_⟩
  · exact C4_ttl_roundtrip_and_expiry.1 _ "q" none "a" 0 3600
      (by norm_num [ResponseCache.init])
  · exact (C4_ttl_roundtrip_and_expiry.2 _ "q" none 3601
      { response := "a", timestamp := 0, hit_count := 0, query_preview := mkPreview "q" }
      (by decide) (set_cache_lookup _ "q" "a" none 0)
      (by rw [set_ttl]; norm_num [ResponseCache.init])).1
  · exact (C4_ttl_roundtrip_and_expiry.2 _ "q" none 3601
      { response := "a", timestamp := 0, hit_count := 0, query_preview := mkPreview "q" }
      (by decide) (set_cache_lookup _ "q" "a" none 0)
      (by rw [set_ttl]; norm_num [ResponseCache.init])).2

/-! ## C7 — eviction at capacity -/

theorem length_aset_of_lookup_some {β : Type} {k : String} (v : β)
    {l : List (String × β)} {e : β} (h : alookup k l = some e) :
    (aset k v l).length = l.length := by
  induction l with
  | nil => simp [alookup] at h
  | cons p rest ih =>
      obtain ⟨k₀, v₀⟩ := p
      simp only [alookup] at h
      by_cases h0 : k₀ = k
      · simp [aset, h0]
      · simp only [if_neg h0] at h
        simp [aset, h0, ih h]

theorem mem_aset_of_ne {β : Type} {k : String} (v : β) {l : List (String × β)}
    {p : String × β} (hp : p ∈ l) (hne : p.1 ≠ k) : p ∈ aset k v l := by
  induction l with
  | nil => simp at hp
  | cons q rest ih =>
      obtain ⟨k₀, v₀⟩ := q
      rcases List.mem_cons.mp hp with h1 | h1
      · subst h1
        by_cases h0 : k₀ = k
        · exact absurd h0 hne
        · simp [aset, h0]
      · by_cases h0 : k₀ = k
        · simp only [aset, if_pos h0]
          exact List.mem_cons_of_mem _ h1
        · simp only [aset, if_neg h0]
          exact List.mem_cons_of_mem _ (ih h1)

theorem alookup_of_mem_nodup {β : Type} {k : String} {v : β} {l : List (String × β)}
    (hm : (k, v) ∈ l) (hnd : (akeys l).Nodup) : alookup k l = some v := by
  induction l with
  | nil => simp at hm
  | cons p rest ih =>
      obtain ⟨k₀, v₀⟩ := p
      simp only [akeys, List.map_cons, List.nodup_cons] at hnd
      rcases List.mem_cons.mp hm with h1 | h1
      · obtain ⟨hk, hv⟩ := Prod.ext_iff.mp h1
        subst hk
        subst hv
        simp [alookup]
      · by_cases h0 : k₀ = k
        · subst h0
          exfalso
          exact hnd.1 (by simpa [akeys] using List.mem_map_of_mem Prod.fst h1)
        · simp only [alookup, if_neg h0]
          exact ih h1 hnd.2

theorem oldestKeyAux_spec (l : List (String × CacheEntry)) (best : String × ℚ) :
    ∃ tsm, (oldestKeyAux best l = best.1 ∧ tsm = best.2 ∨
            ∃ e, (oldestKeyAux best l, e) ∈ l ∧ tsm = e.timestamp) ∧
      tsm ≤ best.2 ∧ ∀ p ∈ l, tsm ≤ p.2.timestamp := by
  induction l generalizing best with
  | nil =>
      exact ⟨best.2, Or.inl ⟨rfl, rfl⟩, le_refl _, by simp⟩
  | cons q rest ih =>
      obtain ⟨k, e⟩ := q
      by_cases h : e.timestamp < best.2
      · rw [show oldestKeyAux best ((k, e) :: rest)
              = oldestKeyAux (k, e.timestamp) rest from by simp [oldestKeyAux, h]]
        obtain ⟨tsm, hcase, hle, hall⟩ := ih (k, e.timestamp)
        have hle' : tsm ≤ e.timestamp := by simpa using hle
        refine ⟨tsm, ?_, le_trans hle' (le_of_lt h), ?_⟩
        · rcases hcase with ⟨hx, hts⟩ | ⟨e', hm, hts⟩
          · exact Or.inr ⟨e, by simp [hx], by simpa using hts⟩
          · exact Or.inr ⟨e', List.mem_cons_of_mem _ hm, hts⟩
        · intro p hp
          rcases List.mem_cons.mp hp with h1 | h1
          · rw [h1]
            exact hle'
          · exact hall p h1
      · rw [show oldestKeyAux best ((k, e) :: rest)
              = oldestKeyAux best rest from by simp [oldestKeyAux, h]]
        obtain ⟨tsm, hcase, hle, hall⟩ := ih best
        refine ⟨tsm, ?_, hle, ?_⟩
        · rcases hcase with ⟨hx, hts⟩ | ⟨e', hm, hts⟩
          · exact Or.inl ⟨hx, hts⟩
          · exact Or.inr ⟨e', List.mem_cons_of_mem _ hm, hts⟩
        · intro p hp
          rcases List.mem_cons.mp hp with h1 | h1
          · rw [h1]
            exact le_trans hle (not_lt.mp h)
          · exact hall p h1

theorem oldestKey?_spec (l : List (String × CacheEntry)) (hne : l ≠ []) :
    ∃ k0 e0, oldestKey? l = some k0 ∧ (k0, e0) ∈ l ∧
      ∀ p ∈ l, e0.timestamp ≤ p.2.timestamp := by
  match l, hne with
  | (k, e) :: rest, _ =>
      obtain ⟨tsm, hcase, hle, hall⟩ := oldestKeyAux_spec rest (k, e.timestamp)
      have hle' : tsm ≤ e.timestamp := by simpa using hle
      rcases hcase with ⟨hx, hts⟩ | ⟨e', hm, hts⟩
      · have hts' : tsm = e.timestamp := by simpa using hts
        refine ⟨oldestKeyAux (k, e.timestamp) rest, e, rfl, ?_, ?_⟩
        · rw [hx]
          exact List.mem_cons_self _ _
        · intro p hp
          rcases List.mem_cons.mp hp with h1 | h1
          · rw [h1]
          · rw [← hts']
            exact hall p h1
      · refine ⟨oldestKeyAux (k, e.timestamp) rest, e', rfl,
          List.mem_cons_of_mem _ hm, ?_⟩
        intro p hp
        rcases List.mem_cons.mp hp with h1 | h1
        · rw [h1, ← hts]
          exact hle'
        · rw [← hts]
          exact hall p h1

/-- C7: at capacity, a `set` under a fresh key deletes exactly one entry,
one with the oldest insert timestamp (the first such in insertion order,
as computed by `oldestKey?`), and appends the new entry; a `set` under a
present key evicts nothing, updates that key in place and leaves every
other entry in the cache. -/
theorem C7_capacity_eviction (st : ResponseCacheState) (message response : String)
    (context : Option String) (now : ℚ) (hnd : (akeys st.cache).Nodup) :
    (∀ k0 e0, st.cache.length = st.max_entries → 1 ≤ st.max_entries →
      alookup (ResponseCache.hash_query message context) st.cache = none →
      oldestKey? st.cache = some k0 → alookup k0 st.cache = some e0 →
      (k0, e0) ∈ st.cache ∧
      (st.cache.all fun p => decide (e0.timestamp ≤ p.2.timestamp)) = true ∧
      (ResponseCache.set st message response context now).cache
        = aerase k0 st.cache ++
          [(ResponseCache.hash_query message context,
            { response := response, timestamp := now, hit_count := 0,
              query_preview := mkPreview message })] ∧
      (ResponseCache.set st message response context now).cache.length
        = st.max_entries) ∧
    (∀ e, alookup (ResponseCache.hash_query message context) st.cache = some e →
      (ResponseCache.set st message response context now).cache
        = aset (ResponseCache.hash_query message context)
            { response := response, timestamp := now, hit_count := 0,
              query_preview := mkPreview message } st.cache ∧
      (ResponseCache.set st message response context now).cache.length
        = st.cache.length ∧
      ∀ p ∈ st.cache, p.1 ≠ ResponseCache.hash_query message context →
        p ∈ (ResponseCache.set st message response context now).cache) := by
  constructor
  · intro k0 e0 hlen hpos hnone hold hke
    have hnonempty : st.cache ≠ [] := by
      intro h
      rw [h] at hlen
      simp at hlen
      omega
    obtain ⟨k1, e1, hk1, hm1, hmin1⟩ := oldestKey?_spec st.cache hnonempty
    have hkk : k0 = k1 := by
      rw [hold] at hk1
      injection hk1
    subst hkk
    have he1 : e0 = e1 := by
      have h2 := alookup_of_mem_nodup hm1 hnd
      rw [hke] at h2
      injection h2
    subst he1
    have hset : (ResponseCache.set st message response context now).cache
        = aset (ResponseCache.hash_query message context)
            { response := response, timestamp := now, hit_count := 0,
              query_preview := mkPreview message } (aerase k0 st.cache) := by
      unfold ResponseCache.set
      dsimp only
      rw [if_pos ⟨le_of_eq hlen.symm, hnone⟩, hold]
    refine ⟨hm1, ?_, ?_, ?_⟩
    · rw [List.all_eq_true]
      intro p hp
      exact decide_eq_true (hmin1 p hp)
    · rw [hset, aset_append_of_lookup_none _ (alookup_none_aerase _ k0 _ hnone)]
    · rw [hset, aset_append_of_lookup_none _ (alookup_none_aerase _ k0 _ hnone)]
      have := length_aerase_of_mem hke
      simp only [List.length_append, List.length_cons, List.length_nil]
      omega
  · intro e he
    have hset : (ResponseCache.set st message response context now).cache
        = aset (ResponseCache.hash_query message context)
            { response := response, timestamp := now, hit_count := 0,
              query_preview := mkPreview message } st.cache := by
      unfold ResponseCache.set
      dsimp only
      rw [if_neg]
      rintro ⟨-, hcontra⟩
      rw [he] at hcontra
      exact Option.noConfusion hcontra
    refine ⟨hset, ?_, ?_⟩
    · rw [hset]
      exact length_aset_of_lookup_some _ he
    · intro p hp hne
      rw [hset]
      exact mem_aset_of_ne _ hp hne

/-- C7 (witness): a two-entry cache at capacity 2 built by two inserts; a
third insert under a fresh key keeps the newer entry and evicts the older
one, and a repeated insert under a present key keeps the length at 2 with
the sibling entry intact. -/
theorem C7_capacity_eviction_witness :
    ((ResponseCache.set
        (ResponseCache.set (ResponseCache.set (ResponseCache.init 3600 2) "a" "ra" none 5)
          "b" "rb" none 2)
        "c" "rc" none 9).cache
      = aerase "b" (ResponseCache.set (ResponseCache.set (ResponseCache.init 3600 2) "a" "ra" none 5)
          "b" "rb" none 2).cache ++
        [(ResponseCache.hash_query "c" none,
          { response := "rc", timestamp := 9, hit_count := 0, query_preview := mkPreview "c" })]) ∧
    ((ResponseCache.set
        (ResponseCache.set (ResponseCache.set (ResponseCache.init 3600 2) "a" "ra" none 5)
          "b" "rb" none 2)
        "a" "ra2" none 9).cache.length
      = (ResponseCache.set (ResponseCache.set (ResponseCache.init 3600 2) "a" "ra" none 5)
          "b" "rb" none 2).cache.length) := by
  constructor
  · exact (C7_capacity_eviction
      (ResponseCache.set (ResponseCache.set (ResponseCache.init 3600 2) "a" "ra" none 5)
        "b" "rb" none 2) "c" "rc" none 9 (by decide)).1 "b"
      { response := "rb", timestamp := 2, hit_count := 0, query_preview := mkPreview "b" }
      (by decide) (by decide) (by decide)
      (by simp [ResponseCache.set, ResponseCache.init, oldestKey?, oldestKeyAux,
            ResponseCache.hash_query, pyStrip, pyLower, isPySpace, alookup, aset, mkPreview]
          norm_num)
      (by decide) |>.2.2.1
  · exact ((C7_capacity_eviction
      (ResponseCache.set (ResponseCache.set (ResponseCache.init 3600 2) "a" "ra" none 5)
        "b" "rb" none 2) "a" "ra2" none 9 (by decide)).2
      { response := "ra", timestamp := 5, hit_count := 0, query_preview := mkPreview "a" }
      (by decide)).2.1

/-! ## C3 — dead workers and the selection candidate set

The monitor alone guards the candidate set: `get_healthy_workers` never
returns a dead worker, failure reports and health checks never revive one,
and only `update_heartbeat` does.  There is no cooldown on the path: the
next fresh heartbeat restores eligibility at once (the 5/10-minute cooldown
of the claim exists only in the shadowed first definition of the
performance tracker's `is_worker_healthy`, which no selection code runs). -/

theorem check_preserves_lookup_dead {st : MonitorState} {w : String}
    {r : WorkerHealthRecord} (id : String) (now : ℚ)
    (hw : alookup w st = some r) (hdead : r.health_status = "dead") :
    alookup w (check_worker_health st id now).2 = some r := by
  unfold check_worker_health
  cases hid : alookup id st with
  | none => exact hw
  | some q =>
      dsimp only
      by_cases hiw : id = w
      · subst hiw
        have hqr : q = r := by
          rw [hw] at hid
          injection hid with h
          exact h.symm
        subst hqr
        have hcond : ¬(health_threshold < now - q.last_heartbeat ∧
            q.health_status ≠ "dead") := by
          rintro ⟨-, hne⟩
          exact hne hdead
        rw [if_neg hcond, aset_self_of_lookup hid]
        exact hw
      · rw [alookup_aset_ne _ _ hiw]
        exact hw

theorem check_fst_dead {st : MonitorState} {w : String} {r : WorkerHealthRecord}
    (now : ℚ) (hw : alookup w st = some r) (hdead : r.health_status = "dead") :
    (check_worker_health st w now).1 = "dead" := by
  unfold check_worker_health
  rw [hw]
  dsimp only
  have hcond : ¬(health_threshold < now - r.last_heartbeat ∧
      r.health_status ≠ "dead") := by
    rintro ⟨-, hne⟩
    exact hne hdead
  rw [if_neg hcond]
  exact hdead

theorem record_failure_preserves_dead {st : MonitorState} {w : String}
    {r : WorkerHealthRecord} (id : String) (hw : alookup w st = some r)
    (hdead : r.health_status = "dead") (hcf : 3 ≤ r.consecutive_failures) :
    ∃ r', alookup w (record_failure st id) = some r' ∧
      r'.health_status = "dead" ∧ 3 ≤ r'.consecutive_failures := by
  unfold record_failure
  cases hid : alookup id st with
  | none => exact ⟨r, hw, hdead, hcf⟩
  | some q =>
      dsimp only
      by_cases hiw : id = w
      · subst hiw
        have hqr : q = r := by
          rw [hw] at hid
          injection hid with h
          exact h.symm
        subst hqr
        have hthr : q.consecutive_failures + 1 ≥ failure_threshold := by
          unfold failure_threshold
          omega
        rw [if_pos hthr]
        refine ⟨_, alookup_aset_self _ _ _, rfl, ?_⟩
        dsimp only
        omega
      · refine ⟨r, ?_, hdead, hcf⟩
        split <;> (try split) <;> rw [alookup_aset_ne _ _ hiw] <;> exact hw

theorem not_mem_healthy_aux {w : String} {r : WorkerHealthRecord}
    (ids : List String) (ty : Option String) (now : ℚ) :
    ∀ st : MonitorState, alookup w st = some r → r.health_status = "dead" →
      w ∉ (get_healthy_workers_aux st ids ty now).1 := by
  induction ids with
  | nil =>
      intro st hw hdead
      simp [get_healthy_workers_aux]
  | cons id rest ih =>
      intro st hw hdead
      unfold get_healthy_workers_aux
      dsimp only
      intro hmem
      have hrec : w ∉ (get_healthy_workers_aux
          (check_worker_health st id now).2 rest ty now).1 :=
        ih _ (check_preserves_lookup_dead id now hw hdead) hdead
      by_cases hiw : id = w
      · subst hiw
        rw [check_fst_dead now hw hdead] at hmem
        simp only [String.reduceEq, Bool.false_and, Bool.false_or,
          Bool.and_eq_true] at hmem
        rcases hmem with hmem
        revert hmem
        split
        · intro hmem
          rcases List.mem_cons.mp hmem with h1 | h1
          · exact absurd h1.symm (by simp_all)
          · exact hrec h1
        · intro hmem
          exact hrec hmem
      · revert hmem
        split
        · intro hmem
          rcases List.mem_cons.mp hmem with h1 | h1
          · exact hiw h1.symm
          · exact hrec h1
        · intro hmem
          exact hrec hmem

theorem monitorRun_preserves_dead {w : String} (evs : List MonitorEvent) :
    ∀ (st : MonitorState) (r : WorkerHealthRecord), alookup w st = some r →
      r.health_status = "dead" → 3 ≤ r.consecutive_failures →
      ¬hasHeartbeatFor w evs →
      ∃ r', alookup w (monitorRun st evs) = some r' ∧
        r'.health_status = "dead" ∧ 3 ≤ r'.consecutive_failures := by
  induction evs with
  | nil =>
      intro st r hw hdead hcf _
      exact ⟨r, hw, hdead, hcf⟩
  | cons ev rest ih =>
      intro st r hw hdead hcf hno
      cases ev with
      | heartbeat id s n =>
          have hno' : ¬(id = w ∨ hasHeartbeatFor w rest) := hno
          push_neg at hno'
          have hlook : alookup w (update_heartbeat st id s n) = some r := by
            unfold update_heartbeat
            cases alookup id st <;>
              · dsimp only
                rw [alookup_aset_ne _ _ hno'.1]
                exact hw
          exact ih _ r hlook hdead hcf hno'.2
      | failure id =>
          obtain ⟨r', h1, h2, h3⟩ := record_failure_preserves_dead id hw hdead hcf
          exact ih _ r' h1 h2 h3 hno
      | check id n =>
          exact ih _ r (check_preserves_lookup_dead id n hw hdead) hdead hcf hno

/-- C3 (counterexample): a worker heartbeats at time 0, fails three times
and is classified dead; a single successful heartbeat at time 1 — less than
5 minutes after those failures, whatever the trend — puts it straight back
into the selection candidate set.  No cooldown is applied. -/
theorem C3_counterexample :
    monitorRun [] [.heartbeat "w1" "idle" 0, .failure "w1", .failure "w1",
        .failure "w1"] = [("w1", recDead)] ∧
    recDead.health_status = "dead" ∧
    update_heartbeat [("w1", recDead)] "w1" "idle" 1 = [("w1", recRevived)] ∧
    (1 : ℚ) - 0 < 5 * 60 ∧
    "w1" ∈ (get_healthy_workers [("w1", recRevived)] none 1).1 := by
  refine ⟨by decide, by decide, by decide, by norm_num, ?_⟩
  simp only [get_healthy_workers, akeys, List.map, get_healthy_workers_aux,
    check_worker_health, alookup, if_pos rfl, recRevived]
  norm_num [health_threshold]

/-- C3 (amended): once the monitor classifies a worker dead (which happens
only with at least `failure_threshold` = 3 consecutive failures on its
record), no sequence of failure reports and health checks without a
successful heartbeat for it ever returns it to the candidate set produced
by `get_healthy_workers`: it stays dead until a heartbeat.  The claimed
cooldown after the heartbeat does not exist on this path (see the
counterexample): re-entry is immediate. -/
theorem C3_dead_excluded_until_heartbeat (st : MonitorState) (w : String)
    (r : WorkerHealthRecord) (evs : List MonitorEvent) (ty : Option String)
    (now : ℚ) (hw : alookup w st = some r) (hdead : r.health_status = "dead")
    (hcf : 3 ≤ r.consecutive_failures) (hno : ¬hasHeartbeatFor w evs) :
    (alookup w (monitorRun st evs)).map WorkerHealthRecord.health_status
      = some "dead" ∧
    w ∉ (get_healthy_workers (monitorRun st evs) ty now).1 := by
  obtain ⟨r', h1, h2, -⟩ := monitorRun_preserves_dead evs st r hw hdead hcf hno
  constructor
  · rw [h1]
    simp [h2]
  · exact not_mem_healthy_aux _ ty now _ h1 h2

/-- C3 (witness): the dead worker of the counterexample stays dead and out
of the candidate set across a further failure and a late health check. -/
theorem C3_dead_excluded_witness :
    (alookup "w1" (monitorRun [("w1", recDead)]
        [.failure "w1", .check "w1" 40])).map WorkerHealthRecord.health_status
      = some "dead" ∧
    "w1" ∉ (get_healthy_workers (monitorRun [("w1", recDead)]
        [.failure "w1", .check "w1" 40]) none 40).1 :=
  C3_dead_excluded_until_heartbeat [("w1", recDead)] "w1" recDead
    [.failure "w1", .check "w1" 40] none 40 (by decide) (by decide) (by decide)
    (by simp [hasHeartbeatFor])

/-! ## C8 — queue ordering

`Task.__lt__` compares priorities only, and the binary heap is not stable,
so equal-priority tasks are not drained in enqueue order; what does hold is
that every dequeue returns a task of minimal stored priority (the highest
priority class). -/

theorem getD_set_self (l : List Task) (i : Nat) (a : Task) (h : i < l.length) :
    (l.set i a).getD i dummyTask = a := by
  induction l generalizing i with
  | nil => simp at h
  | cons b bs ih =>
      cases i with
      | zero => rfl
      | succ n =>
          simp only [List.set, List.getD, List.getElem?_cons_succ]
          exact ih n (by simpa using h)

theorem getD_set_ne (l : List Task) {i j : Nat} (a : Task) (h : i ≠ j) :
    (l.set i a).getD j dummyTask = l.getD j dummyTask := by
  induction l generalizing i j with
  | nil => rfl
  | cons b bs ih =>
      cases i with
      | zero =>
          cases j with
          | zero => exact absurd rfl h
          | succ m => rfl
      | succ n =>
          cases j with
          | zero => rfl
          | succ m =>
              simp only [List.set, List.getD, List.getElem?_cons_succ]
              exact ih fun hh => h (by rw [hh])

theorem pri_set_self {l : List Task} {i : Nat} (a : Task) (h : i < l.length) :
    pri (l.set i a) i = a.priority := by
  unfold pri
  rw [getD_set_self _ _ _ h]

theorem pri_set_ne {l : List Task} {i j : Nat} (a : Task) (h : i ≠ j) :
    pri (l.set i a) j = pri l j := by
  unfold pri
  rw [getD_set_ne _ _ h]

theorem getD_append_lt (l l2 : List Task) (i : Nat) (h : i < l.length) :
    (l ++ l2).getD i dummyTask = l.getD i dummyTask := by
  induction l generalizing i with
  | nil => simp at h
  | cons b bs ih =>
      cases i with
      | zero => rfl
      | succ n =>
          simp only [List.cons_append, List.getD, List.getElem?_cons_succ]
          exact ih n (by simpa using h)

theorem getD_concat_len (l : List Task) (t : Task) :
    (l ++ [t]).getD l.length dummyTask = t := by
  induction l with
  | nil => rfl
  | cons b bs ih =>
      simp only [List.cons_append, List.length_cons, List.getD,
        List.getElem?_cons_succ]
      exact ih

theorem getD_dropLast (l : List Task) (i : Nat) (h : i < l.length - 1) :
    l.dropLast.getD i dummyTask = l.getD i dummyTask := by
  induction l generalizing i with
  | nil => rfl
  | cons b bs ih =>
      cases bs with
      | nil => simp at h
      | cons c cs =>
          cases i with
          | zero => rfl
          | succ n =>
              simp only [List.dropLast, List.getD, List.getElem?_cons_succ]
              exact ih n (by simp at h ⊢; omega)

theorem chooseChild_gt (l : List Task) (endpos pos : Nat) :
    pos < chooseChild l endpos pos := by
  unfold chooseChild
  split <;> omega

theorem chooseChild_lt (l : List Task) (endpos pos : Nat)
    (h : 2 * pos + 1 < endpos) : chooseChild l endpos pos < endpos := by
  unfold chooseChild
  split <;> omega

theorem chooseChild_parent (l : List Task) (endpos pos : Nat) :
    (chooseChild l endpos pos - 1) / 2 = pos := by
  unfold chooseChild
  split <;> omega

theorem chooseChild_min (l : List Task) (pos j : Nat) (hpj : (j - 1) / 2 = pos)
    (hj1 : 1 ≤ j) (hjlen : j < l.length) :
    pri l (chooseChild l l.length pos) ≤ pri l j := by
  have hj : j = 2 * pos + 1 ∨ j = 2 * pos + 2 := by omega
  by_cases hcond : 2 * pos + 2 < l.length ∧
      tlt (l.getD (2 * pos + 1) dummyTask) (l.getD (2 * pos + 2) dummyTask) = false
  · unfold chooseChild
    rw [if_pos hcond]
    have hle : pri l (2 * pos + 2) ≤ pri l (2 * pos + 1) := by
      have h2 := hcond.2
      simp only [tlt, decide_eq_false_iff_not, not_lt] at h2
      exact h2
    rcases hj with rfl | rfl
    · exact hle
    · exact le_refl _
  · unfold chooseChild
    rw [if_neg hcond]
    rcases hj with rfl | rfl
    · exact le_refl _
    · have h2 : tlt (l.getD (2 * pos + 1) dummyTask) (l.getD (2 * pos + 2) dummyTask)
          = true := by
        cases hb : tlt (l.getD (2 * pos + 1) dummyTask) (l.getD (2 * pos + 2) dummyTask)
        · exact absurd ⟨hjlen, hb⟩ hcond
        · rfl
      simp only [tlt, decide_eq_true_eq] at h2
      exact le_of_lt h2

/-- Writing `x` into the hole at `pos` restores the heap shape when every
edge avoiding the hole holds, `x` fits above the children of the hole, and
`x` fits below the parent of the hole. -/
theorem set_hole_heapInv {l : List Task} {pos : Nat} (x : Task)
    (hpos : pos < l.length)
    (hD1 : ∀ j, 1 ≤ j → j < l.length → j ≠ pos → (j - 1) / 2 ≠ pos →
      pri l ((j - 1) / 2) ≤ pri l j)
    (hD2 : ∀ j, 1 ≤ j → j < l.length → (j - 1) / 2 = pos → x.priority ≤ pri l j)
    (hpar : 1 ≤ pos → pri l ((pos - 1) / 2) ≤ x.priority) :
    heapInv (l.set pos x) := by
  intro j hj1 hj2
  rw [List.length_set] at hj2
  by_cases hj : j = pos
  · subst hj
    have h1 : (j - 1) / 2 ≠ j := by omega
    rw [pri_set_ne _ fun h => h1 h.symm, pri_set_self _ hpos]
    exact hpar hj1
  · by_cases hpj : (j - 1) / 2 = pos
    · rw [hpj, pri_set_self _ hpos, pri_set_ne _ fun h => hj h.symm]
      exact hD2 j hj1 hj2 hpj
    · rw [pri_set_ne _ fun h => hpj h.symm, pri_set_ne _ fun h => hj h.symm]
      exact hD1 j hj1 hj2 hj hpj

/-- The bubble-up loop of `_siftdown` (from `startpos = 0`) rebuilds a full
heap from a heap with one hole at `pos`, provided every edge avoiding the
hole holds (`hD1`), the new item fits above the children of the hole
(`hD2`), and the parent of the hole fits above the children of the hole
(`hD3`). -/
theorem siftdownFuel_heapInv (x : Task) :
    ∀ fuel pos (l : List Task), pos ≤ fuel → pos < l.length →
      (∀ j, 1 ≤ j → j < l.length → j ≠ pos → (j - 1) / 2 ≠ pos →
        pri l ((j - 1) / 2) ≤ pri l j) →
      (∀ j, 1 ≤ j → j < l.length → (j - 1) / 2 = pos → x.priority ≤ pri l j) →
      (∀ j, 1 ≤ j → j < l.length → (j - 1) / 2 = pos → 1 ≤ pos →
        pri l ((pos - 1) / 2) ≤ pri l j) →
      heapInv (siftdownFuel fuel l 0 pos x) := by
  intro fuel
  induction fuel with
  | zero =>
      intro pos l hfuel hpos hD1 hD2 hD3
      have hp0 : pos = 0 := by omega
      subst hp0
      simp only [siftdownFuel]
      exact set_hole_heapInv x hpos hD1 hD2 (fun h => absurd h (by omega))
  | succ fuel ih =>
      intro pos l hfuel hpos hD1 hD2 hD3
      simp only [siftdownFuel]
      by_cases hpos0 : 0 < pos
      · rw [if_pos hpos0]
        by_cases hlt : tlt x (l.getD ((pos - 1) / 2) dummyTask) = true
        · rw [if_pos hlt]
          have hxlt : x.priority < pri l ((pos - 1) / 2) := by
            simp only [tlt, decide_eq_true_eq] at hlt
            exact hlt
          have hplt : (pos - 1) / 2 < pos := by omega
          apply ih ((pos - 1) / 2) _ (by omega)
          · rw [List.length_set]
            omega
          · -- hD1 for the new hole
            intro j hj1 hj2 hne hpne
            rw [List.length_set] at hj2
            by_cases hj : j = pos
            · subst hj
              exact absurd rfl hpne
            · by_cases hpj : (j - 1) / 2 = pos
              · rw [hpj, pri_set_self _ hpos, pri_set_ne _ fun h => hj h.symm]
                exact hD3 j hj1 hj2 hpj hpos0
              · rw [pri_set_ne _ fun h => hpj h.symm, pri_set_ne _ fun h => hj h.symm]
                exact hD1 j hj1 hj2 hj hpj
          · -- hD2 for the new hole
            intro j hj1 hj2 hpj
            rw [List.length_set] at hj2
            by_cases hj : j = pos
            · subst hj
              rw [pri_set_self _ hpos]
              exact le_of_lt hxlt
            · rw [pri_set_ne _ fun h => hj h.symm]
              have hedge : pri l ((j - 1) / 2) ≤ pri l j := by
                apply hD1 j hj1 hj2 hj
                omega
              rw [hpj] at hedge
              exact le_trans (le_of_lt hxlt) hedge
          · -- hD3 for the new hole
            intro j hj1 hj2 hpj hp1
            rw [List.length_set] at hj2
            have hgp : ((pos - 1) / 2 - 1) / 2 ≠ pos := by omega
            have hgedge : pri l (((pos - 1) / 2 - 1) / 2) ≤ pri l ((pos - 1) / 2) := by
              apply hD1 ((pos - 1) / 2) hp1 (by omega) (by omega) (by omega)
            by_cases hj : j = pos
            · subst hj
              rw [pri_set_ne _ fun h => hgp h.symm, pri_set_self _ hpos]
              exact hgedge
            · rw [pri_set_ne _ fun h => hgp h.symm, pri_set_ne _ fun h => hj h.symm]
              have hedge : pri l ((j - 1) / 2) ≤ pri l j := by
                apply hD1 j hj1 hj2 hj
                omega
              rw [hpj] at hedge
              exact le_trans hgedge hedge
        · rw [if_neg hlt]
          apply set_hole_heapInv x hpos hD1 hD2
          intro _
          have := (Bool.not_eq_true _).mp hlt
          simp only [tlt, decide_eq_false_iff_not, not_lt] at this
          exact this
      · rw [if_neg hpos0]
        have hp0 : pos = 0 := by omega
        subst hp0
        exact set_hole_heapInv x hpos hD1 hD2 (fun h => absurd h (by omega))

/-- The descend-then-bubble loop of `_siftup` (from position `pos` with
`startpos = 0`, `endpos = l.length`) rebuilds a full heap from a heap with
one hole at `pos`, provided every edge avoiding the hole holds (`hU1`) and
the parent of the hole fits above the children of the hole (`hU2`). -/
theorem siftupFuel_heapInv (x : Task) :
    ∀ fuel pos (l : List Task) (endpos : Nat), endpos = l.length →
      l.length - pos ≤ fuel → pos < l.length →
      (∀ j, 1 ≤ j → j < l.length → j ≠ pos → (j - 1) / 2 ≠ pos →
        pri l ((j - 1) / 2) ≤ pri l j) →
      (∀ j, 1 ≤ j → j < l.length → (j - 1) / 2 = pos → 1 ≤ pos →
        pri l ((pos - 1) / 2) ≤ pri l j) →
      heapInv (siftupFuel fuel l endpos 0 pos x) := by
  intro fuel
  induction fuel with
  | zero =>
      intro pos l endpos hend hf hpos hU1 hU2
      exact absurd hpos (by omega)
  | succ fuel ih =>
      intro pos l endpos hend hf hpos hU1 hU2
      subst hend
      simp only [siftupFuel]
      by_cases hchild : 2 * pos + 1 < l.length
      · rw [if_pos hchild]
        have hcgt := chooseChild_gt l l.length pos
        have hclt := chooseChild_lt l l.length pos hchild
        have hcp := chooseChild_parent l l.length pos
        have hlen : (l.set pos (l.getD (chooseChild l l.length pos) dummyTask)).length
            = l.length := List.length_set l _ _
        apply ih (chooseChild l l.length pos) _ l.length hlen.symm
        · rw [hlen]
          omega
        · rw [hlen]
          exact hclt
        · -- hU1 for the new hole
          intro j hj1 hj2 hne hpne
          rw [hlen] at hj2
          by_cases hj : j = pos
          · subst hj
            have h1 : (j - 1) / 2 ≠ j := by omega
            have h2 : (j - 1) / 2 ≠ chooseChild l l.length j := by omega
            rw [pri_set_ne _ fun h => h1 h.symm, pri_set_self _ hpos]
            exact hU2 (chooseChild l l.length j) (by omega) hclt hcp hj1
          · by_cases hpj : (j - 1) / 2 = pos
            · rw [hpj, pri_set_self _ hpos, pri_set_ne _ fun h => hj h.symm]
              exact chooseChild_min l pos j hpj hj1 hj2
            · rw [pri_set_ne _ fun h => hpj h.symm, pri_set_ne _ fun h => hj h.symm]
              exact hU1 j hj1 hj2 hj hpj
        · -- hU2 for the new hole
          intro j hj1 hj2 hpj hc1
          rw [hlen] at hj2
          have hjgt : pos < j := by omega
          rw [hcp, pri_set_self _ hpos, pri_set_ne _ fun h => (by omega : j ≠ pos) h.symm]
          have hedge : pri l ((j - 1) / 2) ≤ pri l j := by
            apply hU1 j hj1 hj2 (by omega)
            omega
          rw [hpj] at hedge
          exact hedge
      · rw [if_neg hchild]
        apply siftdownFuel_heapInv x pos pos (l.set pos x) (le_refl pos)
        · rw [List.length_set]
          exact hpos
        · intro j hj1 hj2 hne hpne
          rw [List.length_set] at hj2
          rw [pri_set_ne _ fun h => hpne h.symm, pri_set_ne _ fun h => hne h.symm]
          exact hU1 j hj1 hj2 hne hpne
        · intro j hj1 hj2 hpj
          rw [List.length_set] at hj2
          exact absurd hpj (by omega)
        · intro j hj1 hj2 hpj hp1
          rw [List.length_set] at hj2
          exact absurd hpj (by omega)

theorem heapInv_heappush (l : List Task) (hInv : heapInv l) (t : Task) :
    heapInv (heappush l t) := by
  unfold heappush pySiftdown
  rw [getD_concat_len]
  apply siftdownFuel_heapInv t l.length l.length (l ++ [t]) (le_refl _)
  · simp
  · intro j hj1 hj2 hne hpne
    simp only [List.length_append, List.length_cons, List.length_nil] at hj2
    have hjlt : j < l.length := by omega
    have hplt : (j - 1) / 2 < l.length := by omega
    unfold pri
    rw [getD_append_lt _ _ _ hjlt, getD_append_lt _ _ _ hplt]
    exact hInv j hj1 hjlt
  · intro j hj1 hj2 hpj
    simp only [List.length_append, List.length_cons, List.length_nil] at hj2
    omega
  · intro j hj1 hj2 hpj hp1
    simp only [List.length_append, List.length_cons, List.length_nil] at hj2
    omega

theorem heapInv_dropLast {l : List Task} (hInv : heapInv l) :
    heapInv l.dropLast := by
  intro j hj1 hj2
  rw [List.length_dropLast] at hj2
  unfold pri
  rw [getD_dropLast _ _ hj2, getD_dropLast _ _ (by omega)]
  exact hInv j hj1 (by omega)

theorem getLastD_of_dropLast_nil (l : List Task) (hne : l.isEmpty = false)
    (hdl : l.dropLast.isEmpty = true) :
    l.getLastD dummyTask = l.getD 0 dummyTask := by
  match l with
  | [] => simp at hne
  | [a] => rfl
  | a :: b :: bs => simp [List.dropLast] at hdl

theorem heappop_fst {l : List Task} {t : Task} {q' : List Task}
    (h : heappop l = some (t, q')) : t = l.getD 0 dummyTask := by
  unfold heappop at h
  by_cases hemp : l.isEmpty
  · rw [if_pos hemp] at h
    exact absurd h (by simp)
  · rw [if_neg hemp] at h
    dsimp only at h
    by_cases hre : l.dropLast.isEmpty
    · rw [if_pos hre] at h
      injection Option.some_inj.mp h with h1 h2
      rw [← h1]
      exact getLastD_of_dropLast_nil l (Bool.not_eq_true _ |>.mp hemp) hre
    · rw [if_neg hre] at h
      injection Option.some_inj.mp h with h1 h2
      rw [← h1]
      have hlen2 : 0 < l.length - 1 := by
        have : l.dropLast ≠ [] := by simpa using hre
        have := List.length_pos.mpr this
        rw [List.length_dropLast] at this
        omega
      exact (getD_dropLast l 0 hlen2).symm ▸ rfl

theorem heappop_heapInv {l : List Task} {t : Task} {q' : List Task}
    (hInv : heapInv l) (h : heappop l = some (t, q')) : heapInv q' := by
  unfold heappop at h
  by_cases hemp : l.isEmpty
  · rw [if_pos hemp] at h
    exact absurd h (by simp)
  · rw [if_neg hemp] at h
    dsimp only at h
    by_cases hre : l.dropLast.isEmpty
    · rw [if_pos hre] at h
      injection Option.some_inj.mp h with h1 h2
      rw [← h2]
      intro j hj1 hj2
      rw [List.length_dropLast] at hj2
      have hnil : l.dropLast = [] := by simpa using hre
      have hlen0 : l.length - 1 = 0 := by
        have hc := congrArg List.length hnil
        rw [List.length_dropLast] at hc
        simpa using hc
      exact absurd hj2 (by omega)
    · rw [if_neg hre] at h
      injection Option.some_inj.mp h with h1 h2
      rw [← h2]
      unfold pySiftup
      have hdlpos : 0 < l.dropLast.length := by
        have : l.dropLast ≠ [] := by simpa using hre
        exact List.length_pos.mpr this
      have hlen0 : (l.dropLast.set 0 (l.getLastD dummyTask)).length
          = l.dropLast.length := List.length_set _ _ _
      apply siftupFuel_heapInv _ _ 0 _ _ (by rw [hlen0])
      · omega
      · rw [hlen0]
        exact hdlpos
      · intro j hj1 hj2 hne hpne
        rw [hlen0] at hj2
        have hInv' := heapInv_dropLast hInv
        rw [pri_set_ne _ fun hh => hpne hh.symm, pri_set_ne _ fun hh => hne hh.symm]
        exact hInv' j hj1 hj2
      · intro j hj1 hj2 hpj hp1
        exact absurd hp1 (by omega)

theorem heapInv_foldl (ops : List QueueOp) :
    ∀ q : List Task, heapInv q → heapInv (ops.foldl queueStep q) := by
  induction ops with
  | nil =>
      intro q hq
      exact hq
  | cons op rest ih =>
      intro q hq
      cases op with
      | enqueue t =>
          exact ih _ (heapInv_heappush q hq t)
      | dequeue =>
          simp only [List.foldl_cons, queueStep]
          cases h : heappop q with
          | none => exact ih _ hq
          | some p => exact ih _ (heappop_heapInv hq h)

theorem heapInv_runQueue (ops : List QueueOp) : heapInv (runQueue ops) := by
  unfold runQueue
  apply heapInv_foldl
  intro j hj1 hj2
  simp at hj2

theorem heapInv_root_le {l : List Task} (hInv : heapInv l) :
    ∀ i, i < l.length → pri l 0 ≤ pri l i := by
  intro i
  induction i using Nat.strong_induction_on with
  | _ i ih =>
      intro hi
      rcases Nat.eq_zero_or_pos i with rfl | hpos
      · exact le_refl _
      · exact le_trans (ih ((i - 1) / 2) (by omega) (by omega)) (hInv i hpos hi)

theorem exists_getD_of_mem {l : List Task} {u : Task} (h : u ∈ l) :
    ∃ i, i < l.length ∧ l.getD i dummyTask = u := by
  induction l with
  | nil => simp at h
  | cons b bs ih =>
      rcases List.mem_cons.mp h with h1 | h1
      · exact ⟨0, by simp, h1.symm⟩
      · obtain ⟨i, hi, hgd⟩ := ih h1
        exact ⟨i + 1, by simpa using hi, hgd⟩

/-- C8 (counterexample): four equal-priority tasks enqueued in timestamp
order 1, 2, 3, 4 are dequeued in the order 1, 3, 2, 4: the second dequeue
returns the task with timestamp 3 while the equal-priority task with the
strictly earlier timestamp 2 is still pending, so FIFO order within a
priority class does not hold. -/
theorem C8_counterexample :
    heappop (runQueue [.enqueue (mkTask 2 1 "t1"), .enqueue (mkTask 2 2 "t2"),
        .enqueue (mkTask 2 3 "t3"), .enqueue (mkTask 2 4 "t4")])
      = some (mkTask 2 1 "t1",
          [mkTask 2 3 "t3", mkTask 2 2 "t2", mkTask 2 4 "t4"]) ∧
    heappop [mkTask 2 3 "t3", mkTask 2 2 "t2", mkTask 2 4 "t4"]
      = some (mkTask 2 3 "t3", [mkTask 2 2 "t2", mkTask 2 4 "t4"]) ∧
    (mkTask 2 2 "t2").priority = (mkTask 2 3 "t3").priority ∧
    (mkTask 2 2 "t2").timestamp < (mkTask 2 3 "t3").timestamp := by
  refine ⟨by decide, by decide, rfl, by norm_num [mkTask]⟩

/-- C8 (amended): on every queue state reachable by enqueues and dequeues,
a dequeue returns a task whose priority value is minimal among the pending
tasks (the highest priority class is drained first); among tasks of equal
priority no FIFO order is guaranteed, since `Task.__lt__` compares the
priority alone and the binary heap is not stable (see the counterexample). -/
theorem C8_dequeue_returns_top_priority (ops : List QueueOp) (t : Task)
    (q' : List Task) (h : heappop (runQueue ops) = some (t, q')) :
    ∀ u ∈ runQueue ops, t.priority ≤ u.priority := by
  intro u hu
  have hInv := heapInv_runQueue ops
  obtain ⟨i, hi, hgd⟩ := exists_getD_of_mem hu
  have ht := heappop_fst h
  have hroot := heapInv_root_le hInv i hi
  unfold pri at hroot
  rw [ht, ← hgd]
  exact hroot

/-- C8 (witness): dequeuing from the four-task queue of the counterexample
returns the first task, whose priority is no larger than that of the still
pending task with timestamp 2. -/
theorem C8_dequeue_returns_top_priority_witness :
    (mkTask 2 1 "t1").priority ≤ (mkTask 2 2 "t2").priority :=
  C8_dequeue_returns_top_priority
    [.enqueue (mkTask 2 1 "t1"), .enqueue (mkTask 2 2 "t2"),
     .enqueue (mkTask 2 3 "t3"), .enqueue (mkTask 2 4 "t4")]
    (mkTask 2 1 "t1")
    [mkTask 2 3 "t3", mkTask 2 2 "t2", mkTask 2 4 "t4"]
    (by decide) (mkTask 2 2 "t2") (by decide)

end EVE
